import Mathlib

/-!
Verification of the `pakdump` repository against its natural-language
specification.

The Python sources are shallowly embedded:
* byte buffers (`bytearray` / `bytes`) become `List ℕ` with every element
  below 256 where that matters;
* Python `int` values that may be negative become `ℤ`, with explicit
  two's-complement packing/unpacking where `struct` is involved;
* fallible operations (`struct.pack_into` / `struct.unpack` arity and
  range errors) become `Except String`.

Sources embedded: `src/pakdump/mdbe.py` (MDB cipher, header codec, song
codec) and `src/pakdump/dumper.py` (filename CRC-32, index parser,
extraction pipeline).
-/

namespace Pakdump

/-! ## Basic byte helpers -/

/-- Little-endian interpretation of a byte list (`int.from_bytes(bs, "little")`). -/
def leNat (bs : List ℕ) : ℕ := bs.foldr (fun b acc => b + 256 * acc) 0

/-- Read `k` bytes of `file` starting at `pos` (`f.read(k)` after a seek to
`pos`); near the end of the file fewer bytes are returned. -/
def readBytes (file : List ℕ) (pos k : ℕ) : List ℕ := (file.drop pos).take k

/-- Little-endian value of the `k` bytes at offset `off`. -/
def leSlice (buf : List ℕ) (off k : ℕ) : ℕ := leNat (readBytes buf off k)

/-- Signed interpretation of an unsigned 8-bit value (`struct` format `b`). -/
def sint8 (u : ℕ) : ℤ := if u < 128 then (u : ℤ) else (u : ℤ) - 256

/-- Signed interpretation of an unsigned 16-bit value (`struct` format `h`). -/
def sint16 (u : ℕ) : ℤ := if u < 32768 then (u : ℤ) else (u : ℤ) - 65536

/-- Signed interpretation of an unsigned 32-bit value (`struct` format `i`). -/
def sint32 (u : ℕ) : ℤ := if u < 2147483648 then (u : ℤ) else (u : ℤ) - 4294967296

/-- Little-endian bytes of a signed 16-bit value (`struct.pack("<h", v)`). -/
def packH (v : ℤ) : List ℕ :=
  [(v % 65536).toNat % 256, (v % 65536).toNat / 256 % 256]

/-- Little-endian bytes of a signed 32-bit value (`struct.pack("<i", v)`). -/
def packI (v : ℤ) : List ℕ :=
  [(v % 4294967296).toNat % 256, (v % 4294967296).toNat / 256 % 256,
   (v % 4294967296).toNat / 65536 % 256, (v % 4294967296).toNat / 16777216 % 256]

/-! ## MDB cipher (`src/pakdump/mdbe.py`, `MDB.apply_encryption_key`)

`MDB.ENCRYPTION_KEY` is the fixed 9-byte key.  The XOR mask at step `idx`
is computed with Python integer arithmetic (`%` and `//` on non-negative
operands agree with `Nat` `%` and `/`; the subtractions are carried out in
`ℤ` because Python integers are signed). -/

def ENCRYPTION_KEY : List ℕ := [0x32, 0x2B, 0x2E, 0x35, 0x38, 0x3E, 0x3B, 0x2E, 0x41]

/-- The XOR mask of `apply_encryption_key` at step `idx`, as the Python
expression computes it:
`idx + 16 * (idx % 8) + (ENCRYPTION_KEY[idx % 9] ^ (9 * (idx // 9) - idx + 127)) - 9 * (idx // 9)`. -/
def maskVal (idx : ℕ) : ℤ :=
  (idx : ℤ) + 16 * ((idx % 8 : ℕ) : ℤ)
    + ((ENCRYPTION_KEY.getD (idx % 9) 0 ^^^
        (9 * ((idx / 9 : ℕ) : ℤ) - (idx : ℤ) + 127).toNat : ℕ) : ℤ)
    - 9 * ((idx / 9 : ℕ) : ℤ)

/-- The mask as the natural number actually XORed into the byte. -/
def maskByte (idx : ℕ) : ℕ := (maskVal idx).toNat

/-- `MDB.apply_encryption_key(buffer, decrypt)`: allocate an output buffer of
the same length and for each `idx` write
`buffer[in_idx] ^ mask(idx)` to `out_idx`, where
`in_idx = bufflen - 1 - idx` and `out_idx = idx` when decrypting and the two
are swapped when encrypting. -/
def applyEncryptionKey (buffer : List ℕ) (decrypt : Bool) : List ℕ :=
  (List.range buffer.length).foldl
    (fun out idx =>
      let inIdx := bif decrypt then buffer.length - 1 - idx else idx
      let outIdx := bif decrypt then idx else buffer.length - 1 - idx
      out.set outIdx (buffer.getD inIdx 0 ^^^ maskByte idx))
    (List.replicate buffer.length 0)

lemma maskVal_eq (idx : ℕ) :
    maskVal idx = ((idx % 9 : ℕ) : ℤ) + 16 * ((idx % 8 : ℕ) : ℤ)
      + ((ENCRYPTION_KEY.getD (idx % 9) 0 ^^^ (127 - idx % 9) : ℕ) : ℤ) := by
  unfold maskVal
  have h9 : 9 * (idx / 9) + idx % 9 = idx := Nat.div_add_mod idx 9
  have hr : idx % 9 < 9 := Nat.mod_lt _ (by norm_num)
  have ht : (9 * ((idx / 9 : ℕ) : ℤ) - (idx : ℤ) + 127) = ((127 - idx % 9 : ℕ) : ℤ) := by
    push_cast
    omega
  rw [ht, Int.toNat_natCast]
  push_cast
  omega

lemma key_xor_lt (r : ℕ) (hr : r < 9) :
    ENCRYPTION_KEY.getD r 0 ^^^ (127 - r) < 128 := by
  have hk : ∀ s, s < 9 → ENCRYPTION_KEY.getD s 0 < 128 := by decide
  have h1 : ENCRYPTION_KEY.getD r 0 < 2 ^ 7 := hk r hr
  have h2 : 127 - r < 2 ^ 7 := by omega
  have := Nat.xor_lt_two_pow h1 h2
  simpa using this

lemma maskVal_nonneg (idx : ℕ) : 0 ≤ maskVal idx := by
  rw [maskVal_eq]
  positivity

lemma maskVal_le (idx : ℕ) : maskVal idx ≤ 255 := by
  rw [maskVal_eq]
  have hr : idx % 9 < 9 := Nat.mod_lt _ (by norm_num)
  have h8 : idx % 8 < 8 := Nat.mod_lt _ (by norm_num)
  have hx := key_xor_lt (idx % 9) hr
  omega

lemma maskByte_lt (idx : ℕ) : maskByte idx < 256 := by
  have h1 := maskVal_le idx
  have h2 := maskVal_nonneg idx
  unfold maskByte
  omega

lemma maskByte_eq_maskVal (idx : ℕ) : (maskByte idx : ℤ) = maskVal idx := by
  have := maskVal_nonneg idx
  unfold maskByte
  omega

/-! Characterization of the write loop of `apply_encryption_key`: the loop
sets each output index exactly once, so the fold over `List.range` is
described pointwise. -/

lemma getD_set_eq (l : List ℕ) (i j v : ℕ) :
    (l.set i v).getD j 0 = if i = j ∧ i < l.length then v else l.getD j 0 := by
  rcases Nat.lt_or_ge j l.length with hj | hj
  · rw [List.getD_eq_getElem _ _ (by rw [List.length_set]; exact hj),
        List.getD_eq_getElem _ _ hj, List.getElem_set]
    by_cases hij : i = j
    · subst hij
      simp [hj]
    · simp [hij]
  · have hset : (l.set i v).length = l.length := List.length_set l i v
    rw [List.getD_eq_default _ _ (by omega), List.getD_eq_default _ _ hj,
        if_neg (by omega)]

lemma foldl_set_length (g p : ℕ → ℕ) :
    ∀ (l : List ℕ) (acc : List ℕ),
      (l.foldl (fun out i => out.set (p i) (g i)) acc).length = acc.length := by
  intro l
  induction l with
  | nil => intro acc; rfl
  | cons a t ih =>
      intro acc
      simp only [List.foldl_cons]
      rw [ih]
      exact List.length_set acc (p a) (g a)

lemma range'_set_getD (f : ℕ → ℕ) :
    ∀ (k a : ℕ) (acc : List ℕ), a + k ≤ acc.length → ∀ j,
      ((List.range' a k).foldl (fun out i => out.set i (f i)) acc).getD j 0 =
        if a ≤ j ∧ j < a + k then f j else acc.getD j 0 := by
  intro k
  induction k with
  | zero =>
      intro a acc _ j
      simp only [List.range', List.foldl_nil]
      split
      · omega
      · rfl
  | succ k ih =>
      intro a acc hlen j
      rw [List.range'_succ, List.foldl_cons]
      rw [ih (a + 1) (acc.set a (f a)) (by rw [List.length_set]; omega) j]
      rw [getD_set_eq]
      by_cases h1 : a + 1 ≤ j ∧ j < a + 1 + k
      · rw [if_pos h1, if_pos (by omega)]
      · rw [if_neg h1]
        by_cases h2 : j = a
        · subst h2
          rw [if_pos (by omega), if_pos (by omega)]
        · rw [if_neg (by omega), if_neg (by omega)]

lemma range'_set_rev_getD (f : ℕ → ℕ) (n : ℕ) :
    ∀ (k a : ℕ) (acc : List ℕ), a + k ≤ n → acc.length = n → ∀ j,
      ((List.range' a k).foldl (fun out i => out.set (n - 1 - i) (f i)) acc).getD j 0 =
        if n - (a + k) ≤ j ∧ j < n - a then f (n - 1 - j) else acc.getD j 0 := by
  intro k
  induction k with
  | zero =>
      intro a acc _ _ j
      simp only [List.range', List.foldl_nil]
      split
      · omega
      · rfl
  | succ k ih =>
      intro a acc hak hlen j
      rw [List.range'_succ, List.foldl_cons]
      rw [ih (a + 1) (acc.set (n - 1 - a) (f a)) (by omega) (by rw [List.length_set]; exact hlen) j]
      rw [getD_set_eq, hlen]
      rcases Nat.lt_or_ge j (n - a) with hj1 | hj1
      · rcases Nat.lt_or_ge j (n - 1 - a) with hj2 | hj2
        · have e1 : (n - (a + 1 + k) ≤ j ∧ j < n - (a + 1)) ↔
              (n - (a + (k + 1)) ≤ j ∧ j < n - a) := by omega
          have e2 : ¬ (n - 1 - a = j ∧ n - 1 - a < n) := by omega
          rw [if_congr e1 rfl rfl, if_neg e2]
        · have hj : j = n - 1 - a := by omega
          subst hj
          have e1 : ¬ (n - (a + 1 + k) ≤ n - 1 - a ∧ n - 1 - a < n - (a + 1)) := by omega
          have e2 : (n - 1 - a = n - 1 - a ∧ n - 1 - a < n) := by omega
          have e3 : (n - (a + (k + 1)) ≤ n - 1 - a ∧ n - 1 - a < n - a) := by omega
          rw [if_neg e1, if_pos e2, if_pos e3]
          have : n - 1 - (n - 1 - a) = a := by omega
          rw [this]
      · have e1 : ¬ (n - (a + 1 + k) ≤ j ∧ j < n - (a + 1)) := by omega
        have e2 : ¬ (n - 1 - a = j ∧ n - 1 - a < n) := by omega
        have e3 : ¬ (n - (a + (k + 1)) ≤ j ∧ j < n - a) := by omega
        rw [if_neg e1, if_neg e2, if_neg e3]

lemma applyEncryptionKey_length (buf : List ℕ) (d : Bool) :
    (applyEncryptionKey buf d).length = buf.length := by
  unfold applyEncryptionKey
  rw [foldl_set_length]
  exact List.length_replicate buf.length 0

lemma applyEncryptionKey_decrypt_getD (buf : List ℕ) (j : ℕ) (hj : j < buf.length) :
    (applyEncryptionKey buf true).getD j 0 =
      buf.getD (buf.length - 1 - j) 0 ^^^ maskByte j := by
  unfold applyEncryptionKey
  simp only [cond_true]
  rw [List.range_eq_range']
  rw [range'_set_getD (fun idx => buf.getD (buf.length - 1 - idx) 0 ^^^ maskByte idx)
      buf.length 0 (List.replicate buf.length 0) (by simp) j]
  simp [hj]

lemma applyEncryptionKey_encrypt_getD (buf : List ℕ) (j : ℕ) (hj : j < buf.length) :
    (applyEncryptionKey buf false).getD j 0 =
      buf.getD (buf.length - 1 - j) 0 ^^^ maskByte (buf.length - 1 - j) := by
  unfold applyEncryptionKey
  simp only [cond_false]
  rw [List.range_eq_range']
  rw [range'_set_rev_getD (fun idx => buf.getD idx 0 ^^^ maskByte idx)
      buf.length buf.length 0 (List.replicate buf.length 0) (by omega) (by simp) j]
  simp [hj]

/-- The mask schedule exactly as the specification words it (§4.4 of the
spec, claim C7): `mask = idx + 16*(idx mod 8) + (K[idx mod 9] XOR
(9*(idx div 9) - idx + 127)) - 9*(idx div 9)` with the output byte XORed
against `mask & 0xFF`, i.e. the mask taken modulo 256. -/
def specMask (idx : ℕ) : ℕ :=
  (((idx : ℤ) + 16 * ((idx % 8 : ℕ) : ℤ)
    + ((ENCRYPTION_KEY.getD (idx % 9) 0 ^^^
        (9 * ((idx / 9 : ℕ) : ℤ) - (idx : ℤ) + 127).toNat : ℕ) : ℤ)
    - 9 * ((idx / 9 : ℕ) : ℤ)) % 256).toNat

lemma specMask_eq_maskByte (idx : ℕ) : specMask idx = maskByte idx := by
  have h : specMask idx = ((maskVal idx) % 256).toNat := rfl
  rw [h, Int.emod_eq_of_lt (maskVal_nonneg idx) (by have := maskVal_le idx; omega)]
  rfl

/-- C1: the MDB cipher is a round-trip pair: for every byte buffer `x`
(including the empty buffer), `apply_encryption_key` in encrypt direction
composed with `apply_encryption_key` in decrypt direction is the identity:
`encrypt(decrypt(x)) = x` and `decrypt(encrypt(x)) = x`. -/
theorem C1_mdb_cipher_round_trip (x : List ℕ) (_hx : ∀ b ∈ x, b < 256) :
    applyEncryptionKey (applyEncryptionKey x true) false = x ∧
    applyEncryptionKey (applyEncryptionKey x false) true = x := by
  constructor
  · have hlen : (applyEncryptionKey x true).length = x.length :=
      applyEncryptionKey_length x true
    apply List.ext_getElem
    · rw [applyEncryptionKey_length, hlen]
    · intro j hj1 hj2
      rw [← List.getD_eq_getElem _ 0 hj1, ← List.getD_eq_getElem _ 0 hj2]
      have hj : j < (applyEncryptionKey x true).length := by omega
      rw [applyEncryptionKey_encrypt_getD _ j hj, hlen]
      rw [applyEncryptionKey_decrypt_getD x (x.length - 1 - j) (by omega)]
      have he : x.length - 1 - (x.length - 1 - j) = j := by
        rw [applyEncryptionKey_length] at hj1
        omega
      rw [he, Nat.xor_cancel_right]
  · have hlen : (applyEncryptionKey x false).length = x.length :=
      applyEncryptionKey_length x false
    apply List.ext_getElem
    · rw [applyEncryptionKey_length, hlen]
    · intro j hj1 hj2
      rw [← List.getD_eq_getElem _ 0 hj1, ← List.getD_eq_getElem _ 0 hj2]
      have hj : j < (applyEncryptionKey x false).length := by omega
      rw [applyEncryptionKey_decrypt_getD _ j hj, hlen]
      rw [applyEncryptionKey_encrypt_getD x (x.length - 1 - j) (by omega)]
      have he : x.length - 1 - (x.length - 1 - j) = j := by
        rw [applyEncryptionKey_length] at hj1
        omega
      rw [he, Nat.xor_cancel_right]

theorem C1_mdb_cipher_round_trip_witness :
    (∀ b ∈ ([0, 127, 255, 1, 2, 3, 4, 5, 6] : List ℕ), b < 256) ∧
    (applyEncryptionKey (applyEncryptionKey [0, 127, 255, 1, 2, 3, 4, 5, 6] true) false
        = [0, 127, 255, 1, 2, 3, 4, 5, 6] ∧
      applyEncryptionKey (applyEncryptionKey [0, 127, 255, 1, 2, 3, 4, 5, 6] false) true
        = [0, 127, 255, 1, 2, 3, 4, 5, 6]) :=
  ⟨by decide, C1_mdb_cipher_round_trip [0, 127, 255, 1, 2, 3, 4, 5, 6] (by decide)⟩

/-- C7: cipher reference definition: for a buffer of length `n` and `idx < n`,
decryption reads position `n - 1 - idx` of the input and writes position
`idx`, encryption reads position `idx` and writes position `n - 1 - idx`,
and both XOR with the identical mask schedule `specMask` (the formula of the
claim, with the fixed 9-byte key). -/
theorem C7_cipher_reference (buf : List ℕ) (i : ℕ) (hi : i < buf.length) :
    (applyEncryptionKey buf true).getD i 0 =
      buf.getD (buf.length - 1 - i) 0 ^^^ specMask i ∧
    (applyEncryptionKey buf false).getD (buf.length - 1 - i) 0 =
      buf.getD i 0 ^^^ specMask i ∧
    (applyEncryptionKey buf true).length = buf.length ∧
    (applyEncryptionKey buf false).length = buf.length := by
  refine ⟨?_, ?_, applyEncryptionKey_length _ _, applyEncryptionKey_length _ _⟩
  · rw [specMask_eq_maskByte, applyEncryptionKey_decrypt_getD buf i hi]
  · rw [specMask_eq_maskByte, applyEncryptionKey_encrypt_getD buf (buf.length - 1 - i) (by omega)]
    have he : buf.length - 1 - (buf.length - 1 - i) = i := by omega
    rw [he]

theorem C7_cipher_reference_witness :
    (0 < ([10, 20, 30] : List ℕ).length) ∧
    ((applyEncryptionKey [10, 20, 30] true).getD 0 0 =
        ([10, 20, 30] : List ℕ).getD (([10, 20, 30] : List ℕ).length - 1 - 0) 0 ^^^
          specMask 0 ∧
      (applyEncryptionKey [10, 20, 30] false).getD (([10, 20, 30] : List ℕ).length - 1 - 0) 0 =
        ([10, 20, 30] : List ℕ).getD 0 0 ^^^ specMask 0 ∧
      (applyEncryptionKey [10, 20, 30] true).length = ([10, 20, 30] : List ℕ).length ∧
      (applyEncryptionKey [10, 20, 30] false).length = ([10, 20, 30] : List ℕ).length) :=
  ⟨by decide, C7_cipher_reference [10, 20, 30] 0 (by decide)⟩

/-- C10 (implicit): the cipher mask is byte-bounded: for every `idx` the mask
expression evaluates to a value in `[0, 255]`, it equals the simplified form
`(idx mod 9) + 16*(idx mod 8) + (K[idx mod 9] XOR (127 - idx mod 9))`, and
the unmasked XOR always produces a byte, so the store into the output
bytearray never fails. -/
theorem C10_mask_byte_bounded (idx : ℕ) :
    0 ≤ maskVal idx ∧ maskVal idx ≤ 255 ∧
    maskVal idx = ((idx % 9 : ℕ) : ℤ) + 16 * ((idx % 8 : ℕ) : ℤ)
      + ((ENCRYPTION_KEY.getD (idx % 9) 0 ^^^ (127 - idx % 9) : ℕ) : ℤ) ∧
    ∀ b : ℕ, b < 256 → b ^^^ maskByte idx < 256 := by
  refine ⟨maskVal_nonneg idx, maskVal_le idx, maskVal_eq idx, ?_⟩
  intro b hb
  have h1 : b < 2 ^ 8 := by omega
  have h2 : maskByte idx < 2 ^ 8 := by
    have := maskByte_lt idx
    omega
  have := Nat.xor_lt_two_pow h1 h2
  omega

theorem C10_mask_byte_bounded_witness :
    200 < 256 ∧ 200 ^^^ maskByte 5 < 256 :=
  ⟨by decide, (C10_mask_byte_bounded 5).2.2.2 200 (by decide)⟩

/-! ## Filename hashing (`src/pakdump/dumper.py`, `PakDumper.calculate_filename_crc32`
and `PakDumper.generate_crc32_table`)

Path strings are embedded as lists of ASCII codes. -/

/-- `str.lower()` on an ASCII character code. -/
def lowerByte (b : ℕ) : ℕ := if 65 ≤ b ∧ b ≤ 90 then b + 32 else b

/-- One round of the table generator: `(crc >> 1) ^ 0xEDB88320` when the low
bit is set, else `crc >> 1` (the `c_ulong` masking is a no-op on these
values). -/
def crc32Round (crc : ℕ) : ℕ :=
  if crc &&& 1 = 1 then (crc >>> 1) ^^^ 0xEDB88320 else crc >>> 1

/-- `PakDumper.generate_crc32_table`: 256 entries, 8 rounds each. -/
def crc32Table : List ℕ := (List.range 256).map (fun i => crc32Round^[8] i)

/-- The ASCII codes of `"data/"`. -/
def STR_data_slash : List ℕ := [100, 97, 116, 97, 47]

/-- The ASCII codes of `"/data/aep"`. -/
def STR_slash_data_aep : List ℕ := [47, 100, 97, 116, 97, 47, 97, 101, 112]

/-- The path normalization of `calculate_filename_crc32`: prepend `/` when the
string starts with `"data/"`; lowercase the whole string when it then starts
with `"/data/aep"` (a case-sensitive `startswith` test, as in the source). -/
def normalizeFilename (filename : List ℕ) : List ℕ :=
  let f1 := if STR_data_slash.isPrefixOf filename then 47 :: filename else filename
  if STR_slash_data_aep.isPrefixOf f1 then f1.map lowerByte else f1

/-- The CRC loop: seed `0xFFFFFFFF`, per byte
`crc = table[(crc & 0xFF) ^ byte] ^ ((crc >> 8) & 0xFFFFFFFF)`. -/
def crc32Fold (bs : List ℕ) : ℕ :=
  bs.foldl
    (fun crc b => (crc32Table.getD ((crc &&& 255) ^^^ b) 0) ^^^ ((crc >>> 8) &&& 4294967295))
    4294967295

/-- `PakDumper.calculate_filename_crc32`; the final `~crc & 0xFFFFFFFF` is the
32-bit complement, i.e. XOR with `0xFFFFFFFF`. -/
def calculate_filename_crc32 (filename : List ℕ) : ℕ :=
  4294967295 ^^^ crc32Fold (normalizeFilename filename)

lemma lowerByte_idem (b : ℕ) : lowerByte (lowerByte b) = lowerByte b := by
  by_cases h : 65 ≤ b ∧ b ≤ 90
  · have h1 : lowerByte b = b + 32 := by
      unfold lowerByte
      rw [if_pos h]
    rw [h1]
    unfold lowerByte
    rw [if_neg (by omega)]
  · have h1 : lowerByte b = b := by
      unfold lowerByte
      rw [if_neg h]
    rw [h1, h1]

lemma map_lowerByte_aep (s : List ℕ) :
    (STR_slash_data_aep ++ s).map lowerByte = STR_slash_data_aep ++ s.map lowerByte := by
  simp [STR_slash_data_aep, lowerByte]

lemma normalizeFilename_aep (s : List ℕ) :
    normalizeFilename (STR_slash_data_aep ++ s) = STR_slash_data_aep ++ s.map lowerByte := by
  have h1 : STR_data_slash.isPrefixOf (STR_slash_data_aep ++ s) = false := by
    simp [STR_data_slash, STR_slash_data_aep, List.isPrefixOf]
  have h2 : STR_slash_data_aep.isPrefixOf (STR_slash_data_aep ++ s) = true := by
    simp [STR_slash_data_aep, List.isPrefixOf]
  simp only [normalizeFilename, h1, h2, Bool.false_eq_true, if_false, if_true]
  exact map_lowerByte_aep s

/-- C4 counterexample: the claim asserts the `/data/aep` prefix test is
case-insensitive.  The path `"/DATA/AEPX"` begins with `/data/aep` up to
letter case (and is its own normalized form), yet its hash differs from the
hash of its lowercase form, because the source's `startswith("/data/aep")`
test is case-sensitive and the string is left untouched. -/
theorem C4_aep_case_counterexample :
    (([47, 68, 65, 84, 65, 47, 65, 69, 80, 88] : List ℕ).take 9).map lowerByte =
        STR_slash_data_aep ∧
    calculate_filename_crc32 [47, 68, 65, 84, 65, 47, 65, 69, 80, 88] ≠
      calculate_filename_crc32 (([47, 68, 65, 84, 65, 47, 65, 69, 80, 88] : List ℕ).map lowerByte) := by
  constructor
  · decide
  · decide

/-- The ASCII codes of `"data/aep"` (the tail of `"/data/aep"`). -/
def STR_data_aep : List ℕ := [100, 97, 116, 97, 47, 97, 101, 112]

lemma map_lowerByte_data_aep (s : List ℕ) :
    (STR_data_aep ++ s).map lowerByte = STR_data_aep ++ s.map lowerByte := by
  simp [STR_data_aep, lowerByte]

lemma normalizeFilename_data_aep (s : List ℕ) :
    normalizeFilename (STR_data_aep ++ s) = STR_slash_data_aep ++ s.map lowerByte := by
  have h1 : STR_data_slash.isPrefixOf (STR_data_aep ++ s) = true := by
    simp [STR_data_slash, STR_data_aep, List.isPrefixOf]
  have hcons : 47 :: (STR_data_aep ++ s) = STR_slash_data_aep ++ s := by
    simp [STR_data_aep, STR_slash_data_aep]
  have h2 : STR_slash_data_aep.isPrefixOf (47 :: (STR_data_aep ++ s)) = true := by
    rw [hcons]
    simp [STR_slash_data_aep, List.isPrefixOf]
  simp only [normalizeFilename, h1, if_true, h2]
  rw [hcons]
  exact map_lowerByte_aep s

/-- C4 (amended): for every path whose *normalized* form (after prepending a
`/` to strings starting with `"data/"`) begins with the exact lowercase
`"/data/aep"`, `calculate_filename_crc32` lowercases the entire string before
hashing, so the hash of the path equals the hash of its lowercased form; the
prefix test on `"/data/aep"` is case-sensitive. -/
theorem C4_aep_lowercase_invariant (p : List ℕ)
    (hp : STR_slash_data_aep.isPrefixOf
        (if STR_data_slash.isPrefixOf p then 47 :: p else p) = true) :
    calculate_filename_crc32 p = calculate_filename_crc32 (p.map lowerByte) := by
  by_cases hd : STR_data_slash.isPrefixOf p = true
  · rw [if_pos hd] at hp
    have hp' : STR_data_aep.isPrefixOf p = true := by
      simpa [STR_slash_data_aep, STR_data_aep, List.isPrefixOf] using hp
    rw [List.isPrefixOf_iff_prefix] at hp'
    obtain ⟨t, rfl⟩ := hp'
    unfold calculate_filename_crc32
    rw [map_lowerByte_data_aep t, normalizeFilename_data_aep t,
      normalizeFilename_data_aep (t.map lowerByte), List.map_map]
    have hm : t.map (lowerByte ∘ lowerByte) = t.map lowerByte :=
      List.map_congr_left (fun a _ => lowerByte_idem a)
    rw [hm]
  · rw [if_neg hd] at hp
    rw [List.isPrefixOf_iff_prefix] at hp
    obtain ⟨t, rfl⟩ := hp
    unfold calculate_filename_crc32
    rw [map_lowerByte_aep t, normalizeFilename_aep t, normalizeFilename_aep (t.map lowerByte),
      List.map_map]
    have hm : t.map (lowerByte ∘ lowerByte) = t.map lowerByte :=
      List.map_congr_left (fun a _ => lowerByte_idem a)
    rw [hm]

theorem C4_aep_lowercase_invariant_witness :
    STR_slash_data_aep.isPrefixOf
        (if STR_data_slash.isPrefixOf ([100, 97, 116, 97, 47, 97, 101, 112, 81] : List ℕ)
          then 47 :: ([100, 97, 116, 97, 47, 97, 101, 112, 81] : List ℕ)
          else ([100, 97, 116, 97, 47, 97, 101, 112, 81] : List ℕ)) = true ∧
    calculate_filename_crc32 [100, 97, 116, 97, 47, 97, 101, 112, 81] =
      calculate_filename_crc32
        (([100, 97, 116, 97, 47, 97, 101, 112, 81] : List ℕ).map lowerByte) :=
  ⟨by decide, C4_aep_lowercase_invariant [100, 97, 116, 97, 47, 97, 101, 112, 81] (by decide)⟩

/-! ## Index parser (`src/pakdump/dumper.py`, `PakDumper.parse_pack_data`)

The `packinfo.bin` file is a list of bytes.  A `PackInfo` entry holds the
fields of one 16-byte index record plus the preceding 16-byte MD5 digest
(the source stores the digest as a hex string; hex encoding is injective, so
the digest is kept as raw bytes here).  The Python `dict` keyed by `crc32`
is embedded as an association list: assignment to an existing key replaces
the value in place, assignment to a fresh key appends. -/

structure PackInfo where
  crc32 : ℕ
  crc16 : ℕ
  packid : ℕ
  offset : ℕ
  filesize : ℕ
  md5sum : List ℕ
deriving DecidableEq, Repr

/-- `entries[k]` / `k in entries` for the crc32-keyed dictionary. -/
def lookupEntry (entries : List (ℕ × PackInfo)) (k : ℕ) : Option PackInfo :=
  (entries.find? (fun p => p.1 == k)).map (fun p => p.2)

/-- One loop body of `parse_pack_data` after a record has been unpacked:
`if crc32 in entries and entries[crc32].crc16 == crc16: continue` else
`entries[crc32] = entry`. -/
def updateEntries (entries : List (ℕ × PackInfo)) (e : PackInfo) : List (ℕ × PackInfo) :=
  match lookupEntry entries e.crc32 with
  | some old =>
      if old.crc16 == e.crc16 then entries
      else entries.map (fun p => if p.1 == e.crc32 then (e.crc32, e) else p)
  | none => entries ++ [(e.crc32, e)]

/-- `struct.unpack("<IHHII", data)` fed into the `PackInfo` constructor. -/
def mkPackInfo (md5 data : List ℕ) : PackInfo :=
  { crc32 := leSlice data 0 4, crc16 := leSlice data 4 2, packid := leSlice data 6 2,
    offset := leSlice data 8 4, filesize := leSlice data 12 4, md5sum := md5 }

lemma lookup_replace_self (k : ℕ) (e : PackInfo) :
    ∀ entries : List (ℕ × PackInfo), lookupEntry entries k ≠ none →
      lookupEntry (entries.map (fun p => if p.1 == k then (k, e) else p)) k = some e := by
  intro entries
  induction entries with
  | nil => intro h; exact absurd rfl h
  | cons a t ih =>
      intro h
      by_cases hak : a.1 = k
      · simp [lookupEntry, List.map_cons, hak]
      · have hak' : (a.1 == k) = false := by simpa using hak
        simp only [lookupEntry, List.map_cons, hak', if_false] at h ⊢
        rw [List.find?_cons_of_neg _ (by simpa using hak)] at h ⊢
        exact ih h

lemma lookup_replace_other (k k' : ℕ) (e : PackInfo) (hkk : k' ≠ k) :
    ∀ entries : List (ℕ × PackInfo),
      lookupEntry (entries.map (fun p => if p.1 == k then (k, e) else p)) k' =
        lookupEntry entries k' := by
  intro entries
  induction entries with
  | nil => rfl
  | cons a t ih =>
      simp only [lookupEntry, List.map_cons] at ih ⊢
      by_cases hak : a.1 = k
      · have hfa : (if (a.1 == k) = true then (k, e) else a) = (k, e) := by simp [hak]
        rw [hfa, List.find?_cons_of_neg _ (by simp [Ne.symm hkk]),
          List.find?_cons_of_neg _ (by simp [hak, Ne.symm hkk])]
        exact ih
      · have hfa : (if (a.1 == k) = true then (k, e) else a) = a := by simp [hak]
        rw [hfa]
        by_cases hak2 : a.1 = k'
        · rw [List.find?_cons_of_pos _ (by simp [hak2]),
            List.find?_cons_of_pos _ (by simp [hak2])]
        · rw [List.find?_cons_of_neg _ (by simp [hak2]),
            List.find?_cons_of_neg _ (by simp [hak2])]
          exact ih

lemma lookup_append_self (entries : List (ℕ × PackInfo)) (k : ℕ) (e : PackInfo)
    (h : lookupEntry entries k = none) :
    lookupEntry (entries ++ [(k, e)]) k = some e := by
  simp only [lookupEntry] at h ⊢
  have hf : entries.find? (fun p => p.1 == k) = none := by
    rcases hfind : entries.find? (fun p => p.1 == k) with _ | v
    · exact hfind
    · rw [hfind] at h
      simp at h
  rw [List.find?_append, hf]
  have h2 : List.find? (fun p => p.1 == k) [(k, e)] = some (k, e) :=
    List.find?_cons_of_pos _ (by simp)
  rw [h2]
  rfl

lemma lookup_append_other (entries : List (ℕ × PackInfo)) (k k' : ℕ) (e : PackInfo)
    (hkk : k' ≠ k) :
    lookupEntry (entries ++ [(k, e)]) k' = lookupEntry entries k' := by
  simp only [lookupEntry]
  rw [List.find?_append]
  have h1 : List.find? (fun p => p.1 == k') [(k, e)] = none := by
    rw [List.find?_cons_of_neg _ (by simp [Ne.symm hkk])]
    rfl
  rw [h1, Option.or_none]

/-- C2: index dedup policy: when a record's `hash32` already exists in the
entry map and the existing entry's `hash16` equals the new record's `hash16`,
the new record is discarded (first occurrence wins); otherwise — including a
`hash32` collision with a different `hash16` — the new record overwrites the
existing entry, and a fresh `hash32` is inserted; other keys are never
affected.  `updateEntries` is the loop body of `parse_pack_data`. -/
theorem C2_dedup_policy (entries : List (ℕ × PackInfo)) (e : PackInfo) :
    (∀ old, lookupEntry entries e.crc32 = some old →
      (old.crc16 = e.crc16 → updateEntries entries e = entries) ∧
      (old.crc16 ≠ e.crc16 →
        lookupEntry (updateEntries entries e) e.crc32 = some e ∧
        ∀ k, k ≠ e.crc32 → lookupEntry (updateEntries entries e) k = lookupEntry entries k)) ∧
    (lookupEntry entries e.crc32 = none →
      lookupEntry (updateEntries entries e) e.crc32 = some e ∧
      ∀ k, k ≠ e.crc32 → lookupEntry (updateEntries entries e) k = lookupEntry entries k) := by
  constructor
  · intro old hold
    constructor
    · intro hsame
      unfold updateEntries
      rw [hold]
      simp [hsame]
    · intro hdiff
      have hdiff' : (old.crc16 == e.crc16) = false := by simpa using hdiff
      unfold updateEntries
      rw [hold]
      simp only [hdiff', Bool.false_eq_true, if_false]
      constructor
      · exact lookup_replace_self e.crc32 e entries (by rw [hold]; exact fun hh => by cases hh)
      · intro k hk
        exact lookup_replace_other e.crc32 k e hk entries
  · intro hnone
    unfold updateEntries
    rw [hnone]
    exact ⟨lookup_append_self entries e.crc32 e hnone,
      fun k hk => lookup_append_other entries e.crc32 k e hk⟩

theorem C2_dedup_policy_witness :
    updateEntries [(5, ⟨5, 7, 0, 0, 0, []⟩)] ⟨5, 7, 1, 2, 3, [4]⟩ =
        [(5, ⟨5, 7, 0, 0, 0, []⟩)] ∧
    lookupEntry (updateEntries [(5, ⟨5, 7, 0, 0, 0, []⟩)] ⟨5, 8, 1, 2, 3, [4]⟩) 5 =
        some ⟨5, 8, 1, 2, 3, [4]⟩ :=
  ⟨((C2_dedup_policy [(5, ⟨5, 7, 0, 0, 0, []⟩)] ⟨5, 7, 1, 2, 3, [4]⟩).1
      ⟨5, 7, 0, 0, 0, []⟩ rfl).1 rfl,
    (((C2_dedup_policy [(5, ⟨5, 7, 0, 0, 0, []⟩)] ⟨5, 8, 1, 2, 3, [4]⟩).1
      ⟨5, 7, 0, 0, 0, []⟩ rfl).2 (by decide)).1⟩

/-- The read loop of `parse_pack_data`.  While `f.tell() < end_address`,
read a 16-byte digest and a 16-byte record; `break` when either read returns
no bytes at all (`if not md5sum or not data`); `struct.unpack("<IHHII", ...)`
raises when the record read returned a non-empty buffer of fewer than 16
bytes.  The cursor advances by the number of bytes actually returned.
(The source binds the two reads to locals `md5sum` and `data`; they are
inlined here, so `readBytes file pos 16` is `md5sum` and
`readBytes file (pos + (readBytes file pos 16).length) 16` is `data`.) -/
def parseLoop (file : List ℕ) (endAddr : ℕ) (entries : List (ℕ × PackInfo)) (pos : ℕ) :
    Except String (List (ℕ × PackInfo)) :=
  if h0 : pos < endAddr then
    if h : (readBytes file pos 16).isEmpty ∨
        (readBytes file (pos + (readBytes file pos 16).length) 16).isEmpty then
      Except.ok entries
    else if (readBytes file (pos + (readBytes file pos 16).length) 16).length ≠ 16 then
      Except.error "unpack requires a buffer of 16 bytes"
    else
      parseLoop file endAddr
        (updateEntries entries
          (mkPackInfo (readBytes file pos 16)
            (readBytes file (pos + (readBytes file pos 16).length) 16)))
        (pos + (readBytes file pos 16).length
          + (readBytes file (pos + (readBytes file pos 16).length) 16).length)
  else Except.ok entries
termination_by endAddr - pos
decreasing_by
  have h1 : ¬ (readBytes file pos 16).isEmpty = true := fun hh => h (Or.inl hh)
  have h2 : (readBytes file pos 16) ≠ [] := fun he => h1 (by simp [he])
  have h3 : 0 < (readBytes file pos 16).length := List.length_pos.mpr h2
  omega

/-- `PakDumper.parse_pack_data`: the end address is the little-endian u32 at
offset 0x08, the loop starts at offset 0x10 with an empty entry map. -/
def parse_pack_data (file : List ℕ) : Except String (List (ℕ × PackInfo)) :=
  parseLoop file (leSlice file 8 4) [] 16

/-- The sequence of complete (digest, record) pairs found at offsets
`pos, pos + 32, …`: `k` records, each unpacked exactly as the loop does. -/
def completeRecords (file : List ℕ) : ℕ → ℕ → List PackInfo
  | 0, _ => []
  | k + 1, pos =>
      mkPackInfo (readBytes file pos 16) (readBytes file (pos + 16) 16)
        :: completeRecords file k (pos + 32)

lemma parseLoop_complete (file : List ℕ) (endAddr : ℕ) (hEnd : file.length < endAddr) :
    ∀ (k pos : ℕ) (entries : List (ℕ × PackInfo)),
      (file.length - pos) % 32 ≤ 16 →
      (file.length - pos) / 32 = k →
      parseLoop file endAddr entries pos =
        Except.ok ((completeRecords file k pos).foldl updateEntries entries) := by
  intro k
  induction k with
  | zero =>
      intro pos entries hmod hdiv
      have hle : file.length - pos ≤ 16 := by omega
      rw [parseLoop]
      by_cases hpos : pos < endAddr
      · have hcond : (readBytes file pos 16).isEmpty = true ∨
            (readBytes file (pos + (readBytes file pos 16).length) 16).isEmpty = true := by
          rcases Nat.lt_or_ge pos file.length with hlt | hge
          · have hml : (readBytes file pos 16).length = file.length - pos := by
              simp only [readBytes, List.length_take, List.length_drop]
              omega
            have hdata : readBytes file (pos + (readBytes file pos 16).length) 16 = [] := by
              rw [hml]
              have hpf : pos + (file.length - pos) = file.length := by omega
              rw [hpf]
              simp [readBytes, List.drop_eq_nil_of_le]
            exact Or.inr (by simp [hdata])
          · have hmd5 : readBytes file pos 16 = [] := by
              simp [readBytes, List.drop_eq_nil_of_le hge]
            exact Or.inl (by simp [hmd5])
        rw [dif_pos hpos, dif_pos hcond]
        simp [completeRecords]
      · rw [dif_neg hpos]
        simp [completeRecords]
  | succ k ih =>
      intro pos entries hmod hdiv
      have h32 : 32 ≤ file.length - pos := by omega
      have hmd5 : (readBytes file pos 16).length = 16 := by
        simp only [readBytes, List.length_take, List.length_drop]
        omega
      have hdata : (readBytes file (pos + 16) 16).length = 16 := by
        simp only [readBytes, List.length_take, List.length_drop]
        omega
      have hne1 : (readBytes file pos 16).isEmpty = false := by
        rcases hE : (readBytes file pos 16).isEmpty with _ | _
        · rfl
        · rw [List.isEmpty_iff.mp hE] at hmd5
          simp at hmd5
      have hne2 : (readBytes file (pos + 16) 16).isEmpty = false := by
        rcases hE : (readBytes file (pos + 16) 16).isEmpty with _ | _
        · rfl
        · rw [List.isEmpty_iff.mp hE] at hdata
          simp at hdata
      rw [parseLoop, dif_pos (by omega : pos < endAddr), hmd5]
      rw [dif_neg (by simp [hne1, hne2])]
      rw [if_neg (by simp [hdata])]
      rw [hdata]
      have hpp : pos + 16 + 16 = pos + 32 := by omega
      rw [hpp]
      rw [ih (pos + 32) (updateEntries entries
            (mkPackInfo (readBytes file pos 16) (readBytes file (pos + 16) 16)))
          (by omega) (by omega)]
      simp [completeRecords]

/-- The crafted index file of the C5 counterexample: a 16-byte header whose
declared end address (offset 0x08) is 100, one full 16-byte digest, and then
a single further byte — a non-empty partial record after the digest.
Total length 33, well short of the declared end address. -/
def C5file : List ℕ :=
  [7, 13, 21, 34, 55, 89, 144, 233, 100, 0, 0, 0, 12, 34, 56, 78,
   201, 202, 203, 204, 205, 206, 207, 208, 209, 210, 211, 212, 213, 214, 215, 216, 9]

/-- C5 counterexample: the claim asserts that whenever the declared end
address exceeds the file length, parsing stops at the last complete record
without raising, *for any truncation point, including a truncation leaving a
non-empty partial record after the 16-byte digest*.  On `C5file` (declared
end 100, actual length 33, a 1-byte partial record after the digest) the
parser instead raises from `struct.unpack`, because the source only `break`s
on *empty* reads, not on short ones. -/
theorem C5_partial_record_counterexample :
    C5file.length < leSlice C5file 8 4 ∧
    parse_pack_data C5file = Except.error "unpack requires a buffer of 16 bytes" := by
  constructor
  · decide
  · rw [parse_pack_data, parseLoop]
    norm_num [leSlice, leNat, readBytes, C5file]

/-- C5 (amended): for every index file whose declared end address (the
little-endian u32 at offset 0x08) exceeds the actual file length, and whose
truncation point does not fall strictly inside the 16-byte record part of a
trailing partial record (i.e. `(length - 0x10) % 32 ≤ 16`: the tail after the
last complete record is at most a digest), `parse_pack_data` stops at the
last complete 32-byte record without raising and returns exactly the
fully-read records, folded through the dedup step.  A truncation strictly
inside the record part raises from `struct.unpack` instead. -/
theorem C5_truncation_tolerated (file : List ℕ)
    (hEnd : file.length < leSlice file 8 4)
    (hres : (file.length - 16) % 32 ≤ 16) :
    parse_pack_data file =
      Except.ok ((completeRecords file ((file.length - 16) / 32) 16).foldl updateEntries []) := by
  rw [parse_pack_data]
  exact parseLoop_complete file (leSlice file 8 4) hEnd ((file.length - 16) / 32) 16 [] hres rfl

/-- A 64-byte index file: header with declared end 200, one complete record
(digest of 2s, record bytes 1..16), then a trailing digest-only tail of 3s. -/
def C5okFile : List ℕ :=
  [3, 1, 4, 1, 5, 9, 2, 6, 200, 0, 0, 0, 31, 41, 59, 26] ++
    List.replicate 16 2 ++
    [1, 2, 3, 4, 5, 6, 7, 8, 9, 10, 11, 12, 13, 14, 15, 16] ++
    List.replicate 16 3

theorem C5_truncation_tolerated_witness :
    C5okFile.length < leSlice C5okFile 8 4 ∧
    (C5okFile.length - 16) % 32 ≤ 16 ∧
    parse_pack_data C5okFile =
      Except.ok
        ((completeRecords C5okFile ((C5okFile.length - 16) / 32) 16).foldl updateEntries []) :=
  ⟨by decide, by decide, C5_truncation_tolerated C5okFile (by decide) (by decide)⟩

/-! ## Extraction pipeline (`src/pakdump/dumper.py`, `PakDumper.extract_data_mem`
and `PakDumper.extract_data`)

The MD5 digest (`get_md5sum`) and the opaque native decrypt primitive
(`pakdec.decrypt`) are injected as function parameters `md5` and `dec`
(the source compares hex digest strings; hex encoding is injective, so
digests are compared as values here).  `packlist` maps a pack id to the
contents of the pack file; `none` covers both failure cases of the source
(`packid not in packlist`, and the pack path not existing on disk).  The
second component of the result counts how many times the decrypt primitive
was invoked (instrumentation; the source calls `self.decrypt` in exactly the
places counted). -/

def extract_data_mem (md5 : List ℕ → List ℕ) (dec : List ℕ → PackInfo → List ℕ)
    (packlist : ℕ → Option (List ℕ)) (entry : PackInfo) :
    Option (List ℕ) × ℕ :=
  match packlist entry.packid with
  | none => (none, 0)
  | some packdata =>
      let data0 := (packdata.drop entry.offset).take entry.filesize
      let d1 := if md5 data0 ≠ entry.md5sum then (dec data0 entry, 1) else (data0, 0)
      if md5 d1.1 ≠ entry.md5sum then (none, d1.2) else (some d1.1, d1.2)

/-- `PakDumper.extract_data`: extract, and when data was produced, strip one
leading `/` from the resolved filename, and skip the write when the
destination exists and `force` is unset.  `none` means no output file is
written; `some (path, bytes)` is the write that happens. -/
def extract_data (md5 : List ℕ → List ℕ) (dec : List ℕ → PackInfo → List ℕ)
    (packlist : ℕ → Option (List ℕ)) (entry : PackInfo) (filename : List ℕ)
    (outExists force : Bool) : Option (List ℕ × List ℕ) :=
  match (extract_data_mem md5 dec packlist entry).1 with
  | none => none
  | some data =>
      let fp := if filename.headD 0 == 47 then filename.tail else filename
      if outExists && !force then none else some (fp, data)

/-- C8: extraction digest protocol: when the raw container slice already
hashes to the expected digest, `extract_data_mem` returns the slice unchanged
and never invokes the decrypt primitive; when it does not match, the decrypt
primitive is invoked exactly once and the digest recomputed on its output;
if the post-decrypt digest still mismatches, `extract_data_mem` returns no
data and `extract_data` writes no output file. -/
theorem C8_extract_digest_protocol
    (md5 : List ℕ → List ℕ) (dec : List ℕ → PackInfo → List ℕ)
    (packlist : ℕ → Option (List ℕ)) (entry : PackInfo) (pack : List ℕ)
    (hpack : packlist entry.packid = some pack) :
    (md5 ((pack.drop entry.offset).take entry.filesize) = entry.md5sum →
      extract_data_mem md5 dec packlist entry =
        (some ((pack.drop entry.offset).take entry.filesize), 0)) ∧
    (md5 ((pack.drop entry.offset).take entry.filesize) ≠ entry.md5sum →
      (extract_data_mem md5 dec packlist entry).2 = 1 ∧
      (md5 (dec ((pack.drop entry.offset).take entry.filesize) entry) = entry.md5sum →
        (extract_data_mem md5 dec packlist entry).1 =
          some (dec ((pack.drop entry.offset).take entry.filesize) entry)) ∧
      (md5 (dec ((pack.drop entry.offset).take entry.filesize) entry) ≠ entry.md5sum →
        (extract_data_mem md5 dec packlist entry).1 = none ∧
        ∀ filename outExists force,
          extract_data md5 dec packlist entry filename outExists force = none)) := by
  constructor
  · intro hmatch
    simp [extract_data_mem, hpack, hmatch]
  · intro hmiss
    refine ⟨?_, ?_, ?_⟩
    · by_cases h2 : md5 (dec ((pack.drop entry.offset).take entry.filesize) entry) = entry.md5sum
      · simp [extract_data_mem, hpack, hmiss, h2]
      · simp [extract_data_mem, hpack, hmiss, h2]
    · intro h2
      simp [extract_data_mem, hpack, hmiss, h2]
    · intro h2
      have hmem : (extract_data_mem md5 dec packlist entry).1 = none := by
        simp [extract_data_mem, hpack, hmiss, h2]
      refine ⟨hmem, ?_⟩
      intro filename outExists force
      unfold extract_data
      rw [hmem]

theorem C8_extract_digest_protocol_witness :
    ((fun i => if i = 0 then some [1, 2, 3] else none) : ℕ → Option (List ℕ))
        (PackInfo.packid ⟨9, 9, 0, 0, 3, [1, 2, 3]⟩) = some [1, 2, 3] ∧
    extract_data_mem (fun l => l) (fun d _ => d)
        (fun i => if i = 0 then some [1, 2, 3] else none) ⟨9, 9, 0, 0, 3, [1, 2, 3]⟩ =
      (some [1, 2, 3], 0) :=
  ⟨rfl,
    (C8_extract_digest_protocol (fun l => l) (fun d _ => d)
        (fun i => if i = 0 then some [1, 2, 3] else none) ⟨9, 9, 0, 0, 3, [1, 2, 3]⟩
        [1, 2, 3] rfl).1 rfl⟩

/-! ## MDB header codec (`src/pakdump/mdbe.py`, `MDBHeader`)

Struct format `"<8biihhhhh"` packed into a 64-byte buffer.  The identifier is
kept as its list of character codes; `str.encode("UTF-8")` of a non-ASCII
identifier would change the byte count and fail the pack arity, so codes are
required to be at most 127 (format `b` also rejects bytes above 127).
Field order mirrors `MDBHeader.__init__`. -/

structure MDBHeader where
  id : List ℕ
  format : ℤ
  checksum : ℤ
  header_size : ℤ
  record_size : ℤ
  record_number : ℤ
  course_size : ℤ
  course_number : ℤ
deriving DecidableEq, Repr

/-- The byte image produced by `MDBHeader.to_bytearray`'s `struct.pack_into`:
the source supplies, in order, the id bytes, `format`, `checksum`,
`header_size`, `record_size`, `record_number`, **`course_number`,
`course_size`** (sic), into a zeroed 64-byte buffer. -/
def headerBytes (h : MDBHeader) : List ℕ :=
  h.id ++ packI h.format ++ packI h.checksum ++ packH h.header_size ++
    packH h.record_size ++ packH h.record_number ++ packH h.course_number ++
    packH h.course_size ++ List.replicate 38 0

/-- `MDBHeader.to_bytearray`, with `struct.pack_into`'s arity and range
checking made explicit. -/
def MDBHeader.to_bytearray (h : MDBHeader) : Except String (List ℕ) :=
  if h.id.length ≠ 8 then Except.error "pack arity"
  else if ¬ (∀ b ∈ h.id, b ≤ 127) then Except.error "byte out of range"
  else if ¬ (-2147483648 ≤ h.format ∧ h.format < 2147483648) then Except.error "i out of range"
  else if ¬ (-2147483648 ≤ h.checksum ∧ h.checksum < 2147483648) then Except.error "i out of range"
  else if ¬ (-32768 ≤ h.header_size ∧ h.header_size < 32768) then Except.error "h out of range"
  else if ¬ (-32768 ≤ h.record_size ∧ h.record_size < 32768) then Except.error "h out of range"
  else if ¬ (-32768 ≤ h.record_number ∧ h.record_number < 32768) then Except.error "h out of range"
  else if ¬ (-32768 ≤ h.course_number ∧ h.course_number < 32768) then Except.error "h out of range"
  else if ¬ (-32768 ≤ h.course_size ∧ h.course_size < 32768) then Except.error "h out of range"
  else Except.ok (headerBytes h)

/-- `struct.unpack_from("<8biihhhhh", buffer)`: eight signed bytes, two
signed 32-bit and five signed 16-bit little-endian values. -/
def unpackHeader (buf : List ℕ) : List ℤ :=
  [sint8 (buf.getD 0 0), sint8 (buf.getD 1 0), sint8 (buf.getD 2 0), sint8 (buf.getD 3 0),
   sint8 (buf.getD 4 0), sint8 (buf.getD 5 0), sint8 (buf.getD 6 0), sint8 (buf.getD 7 0),
   sint32 (leSlice buf 8 4), sint32 (leSlice buf 12 4),
   sint16 (leSlice buf 16 2), sint16 (leSlice buf 18 2), sint16 (leSlice buf 20 2),
   sint16 (leSlice buf 22 2), sint16 (leSlice buf 24 2)]

/-- `MDBHeader.from_byte_data`: the source destructures `data[8:]` as
`(format, checksum, header_size, record_size, record_number, course_number,
course_size)` — tuple position 13 is named `course_number` and position 14
`course_size` — and `bytes(data[0:8])` raises for negative values. -/
def MDBHeader.from_byte_data (data : List ℤ) : Except String MDBHeader :=
  match data with
  | [b0, b1, b2, b3, b4, b5, b6, b7, format, checksum, hs, rs, rn, cn, cs] =>
      if ¬ (0 ≤ b0 ∧ 0 ≤ b1 ∧ 0 ≤ b2 ∧ 0 ≤ b3 ∧ 0 ≤ b4 ∧ 0 ≤ b5 ∧ 0 ≤ b6 ∧ 0 ≤ b7) then
        Except.error "bytes value out of range"
      else
        Except.ok ⟨[b0.toNat, b1.toNat, b2.toNat, b3.toNat,
            b4.toNat, b5.toNat, b6.toNat, b7.toNat],
          format, checksum, hs, rs, rn, cs, cn⟩
  | _ => Except.error "unpack arity"

lemma sint8_of_le (a : ℕ) (ha : a ≤ 127) : sint8 a = (a : ℤ) := by
  unfold sint8
  rw [if_pos (by omega)]

lemma sint16_digits (v : ℤ) (h1 : -32768 ≤ v) (h2 : v < 32768) :
    sint16 ((v % 65536).toNat % 256 + 256 * ((v % 65536).toNat / 256 % 256)) = v := by
  unfold sint16
  omega

lemma sint32_digits (v : ℤ) (h1 : -2147483648 ≤ v) (h2 : v < 2147483648) :
    sint32 ((v % 4294967296).toNat % 256 + 256 * ((v % 4294967296).toNat / 256 % 256 +
      256 * ((v % 4294967296).toNat / 65536 % 256 +
        256 * ((v % 4294967296).toNat / 16777216 % 256)))) = v := by
  unfold sint32
  omega

lemma unpackHeader_explicit (u0 u1 u2 u3 u4 u5 u6 u7 b0 b1 b2 b3 c0 c1 c2 c3
    d0 d1 e0 e1 f0 f1 g0 g1 k0 k1 : ℕ) (tail : List ℕ) :
    unpackHeader (u0::u1::u2::u3::u4::u5::u6::u7::b0::b1::b2::b3::c0::c1::c2::c3::
        d0::d1::e0::e1::f0::f1::g0::g1::k0::k1::tail) =
      [sint8 u0, sint8 u1, sint8 u2, sint8 u3, sint8 u4, sint8 u5, sint8 u6, sint8 u7,
       sint32 (b0 + 256 * (b1 + 256 * (b2 + 256 * b3))),
       sint32 (c0 + 256 * (c1 + 256 * (c2 + 256 * c3))),
       sint16 (d0 + 256 * d1), sint16 (e0 + 256 * e1), sint16 (f0 + 256 * f1),
       sint16 (g0 + 256 * g1), sint16 (k0 + 256 * k1)] := by
  simp [unpackHeader, leSlice, readBytes, leNat]

lemma exists_eight (l : List ℕ) (hl : l.length = 8) :
    ∃ u0 u1 u2 u3 u4 u5 u6 u7, l = [u0, u1, u2, u3, u4, u5, u6, u7] := by
  rcases l with
    _ | ⟨u0, _ | ⟨u1, _ | ⟨u2, _ | ⟨u3, _ | ⟨u4, _ | ⟨u5, _ | ⟨u6, _ | ⟨u7, _ | ⟨u8, l⟩⟩⟩⟩⟩⟩⟩⟩⟩ <;>
    first
      | exact ⟨u0, u1, u2, u3, u4, u5, u6, u7, rfl⟩
      | simp at hl

lemma header_decode_encode (u0 u1 u2 u3 u4 u5 u6 u7 : ℕ)
    (h0 : u0 ≤ 127) (h1 : u1 ≤ 127) (h2 : u2 ≤ 127) (h3 : u3 ≤ 127)
    (h4 : u4 ≤ 127) (h5 : u5 ≤ 127) (h6 : u6 ≤ 127) (h7 : u7 ≤ 127)
    (f c hs rs rn cn cs : ℤ)
    (hf1 : -2147483648 ≤ f) (hf2 : f < 2147483648)
    (hc1 : -2147483648 ≤ c) (hc2 : c < 2147483648)
    (hhs1 : -32768 ≤ hs) (hhs2 : hs < 32768)
    (hrs1 : -32768 ≤ rs) (hrs2 : rs < 32768)
    (hrn1 : -32768 ≤ rn) (hrn2 : rn < 32768)
    (hcn1 : -32768 ≤ cn) (hcn2 : cn < 32768)
    (hcs1 : -32768 ≤ cs) (hcs2 : cs < 32768) :
    MDBHeader.from_byte_data (unpackHeader
        ([u0, u1, u2, u3, u4, u5, u6, u7] ++ packI f ++ packI c ++ packH hs ++
          packH rs ++ packH rn ++ packH cn ++ packH cs ++ List.replicate 38 0)) =
      Except.ok ⟨[u0, u1, u2, u3, u4, u5, u6, u7], f, c, hs, rs, rn, cs, cn⟩ := by
  simp only [packI, packH, List.cons_append, List.nil_append]
  rw [unpackHeader_explicit]
  rw [sint8_of_le u0 h0, sint8_of_le u1 h1, sint8_of_le u2 h2, sint8_of_le u3 h3,
    sint8_of_le u4 h4, sint8_of_le u5 h5, sint8_of_le u6 h6, sint8_of_le u7 h7,
    sint32_digits f hf1 hf2, sint32_digits c hc1 hc2,
    sint16_digits hs hhs1 hhs2, sint16_digits rs hrs1 hrs2, sint16_digits rn hrn1 hrn2,
    sint16_digits cn hcn1 hcn2, sint16_digits cs hcs1 hcs2]
  rw [MDBHeader.from_byte_data]
  rw [if_neg (not_not_intro
    ⟨Int.natCast_nonneg u0, Int.natCast_nonneg u1, Int.natCast_nonneg u2,
     Int.natCast_nonneg u3, Int.natCast_nonneg u4, Int.natCast_nonneg u5,
     Int.natCast_nonneg u6, Int.natCast_nonneg u7⟩)]
  simp [Int.toNat_natCast]

lemma header_roundtrip (h : MDBHeader)
    (hlen : h.id.length = 8) (hascii : ∀ b ∈ h.id, b ≤ 127)
    (hf : -2147483648 ≤ h.format ∧ h.format < 2147483648)
    (hc : -2147483648 ≤ h.checksum ∧ h.checksum < 2147483648)
    (hhs : -32768 ≤ h.header_size ∧ h.header_size < 32768)
    (hrs : -32768 ≤ h.record_size ∧ h.record_size < 32768)
    (hrn : -32768 ≤ h.record_number ∧ h.record_number < 32768)
    (hcn : -32768 ≤ h.course_number ∧ h.course_number < 32768)
    (hcs : -32768 ≤ h.course_size ∧ h.course_size < 32768) :
    MDBHeader.to_bytearray h = Except.ok (headerBytes h) ∧
    MDBHeader.from_byte_data (unpackHeader (headerBytes h)) = Except.ok h := by
  constructor
  · unfold MDBHeader.to_bytearray
    rw [if_neg (by simp [hlen]), if_neg (not_not_intro hascii), if_neg (not_not_intro hf),
      if_neg (not_not_intro hc), if_neg (not_not_intro hhs), if_neg (not_not_intro hrs),
      if_neg (not_not_intro hrn), if_neg (not_not_intro hcn), if_neg (not_not_intro hcs)]
  · obtain ⟨u0, u1, u2, u3, u4, u5, u6, u7, hid⟩ := exists_eight h.id hlen
    have hmem : ∀ b, b ∈ ([u0, u1, u2, u3, u4, u5, u6, u7] : List ℕ) → b ≤ 127 := by
      intro b hb
      exact hascii b (by rw [hid]; exact hb)
    unfold headerBytes
    rw [hid]
    rw [header_decode_encode u0 u1 u2 u3 u4 u5 u6 u7
      (hmem u0 (by simp)) (hmem u1 (by simp)) (hmem u2 (by simp)) (hmem u3 (by simp))
      (hmem u4 (by simp)) (hmem u5 (by simp)) (hmem u6 (by simp)) (hmem u7 (by simp))
      h.format h.checksum h.header_size h.record_size h.record_number
      h.course_number h.course_size
      hf.1 hf.2 hc.1 hc.2 hhs.1 hhs.2 hrs.1 hrs.2 hrn.1 hrn.2 hcn.1 hcn.2 hcs.1 hcs.2]
    rw [← hid]

lemma headerBytes_slices (u0 u1 u2 u3 u4 u5 u6 u7 : ℕ) (f c hs rs rn cn cs : ℤ) :
    leSlice ([u0, u1, u2, u3, u4, u5, u6, u7] ++ packI f ++ packI c ++ packH hs ++
        packH rs ++ packH rn ++ packH cn ++ packH cs ++ List.replicate 38 0) 22 2 =
      (cn % 65536).toNat % 256 + 256 * ((cn % 65536).toNat / 256 % 256) ∧
    leSlice ([u0, u1, u2, u3, u4, u5, u6, u7] ++ packI f ++ packI c ++ packH hs ++
        packH rs ++ packH rn ++ packH cn ++ packH cs ++ List.replicate 38 0) 24 2 =
      (cs % 65536).toNat % 256 + 256 * ((cs % 65536).toNat / 256 % 256) ∧
    ([u0, u1, u2, u3, u4, u5, u6, u7] ++ packI f ++ packI c ++ packH hs ++
        packH rs ++ packH rn ++ packH cn ++ packH cs ++ List.replicate 38 0).length = 64 := by
  refine ⟨?_, ?_, ?_⟩ <;>
    simp [packI, packH, leSlice, readBytes, leNat, List.length_replicate]

/-- The concrete header of the C6 counterexample: `courseSize = 1`,
`courseCount = 2`, identifier `"GF/DMmdb"`. -/
def C6hdr : MDBHeader :=
  ⟨[71, 70, 47, 68, 77, 109, 100, 98], 102, 0, 64, 188, 3, 1, 2⟩

/-- C6 counterexample: the claim places `courseSize` at byte offset 0x16 of
the encoded header.  For `C6hdr` (courseSize 1, courseCount 2) the encoder
succeeds and the i16 at offset 0x16 of its output is 2 — the course *count*
— not the course size: the source packs `course_number` before
`course_size`. -/
theorem C6_layout_counterexample :
    MDBHeader.to_bytearray C6hdr = Except.ok (headerBytes C6hdr) ∧
    C6hdr.course_size = 1 ∧ C6hdr.course_number = 2 ∧
    sint16 (leSlice (headerBytes C6hdr) 22 2) ≠ C6hdr.course_size ∧
    sint16 (leSlice (headerBytes C6hdr) 22 2) = C6hdr.course_number := by
  refine ⟨rfl, rfl, rfl, by decide, by decide⟩

/-- C6 (amended): in the on-disk 64-byte header the fields after the 8-byte
identifier, `formatCode` (i32) and `checksum` (i32) are, in order,
`headerSize`, `recordSize`, `recordCount`, **`courseCount`**, **`courseSize`**
— i.e. the i16 at byte offset 0x16 is the course *count* and the i16 at
offset 0x18 is the course *size* — and encoder and decoder agree on exactly
that order (decoding the encoding restores every field). -/
theorem C6_header_layout_corrected (h : MDBHeader)
    (hlen : h.id.length = 8) (hascii : ∀ b ∈ h.id, b ≤ 127)
    (hf : -2147483648 ≤ h.format ∧ h.format < 2147483648)
    (hc : -2147483648 ≤ h.checksum ∧ h.checksum < 2147483648)
    (hhs : -32768 ≤ h.header_size ∧ h.header_size < 32768)
    (hrs : -32768 ≤ h.record_size ∧ h.record_size < 32768)
    (hrn : -32768 ≤ h.record_number ∧ h.record_number < 32768)
    (hcn : -32768 ≤ h.course_number ∧ h.course_number < 32768)
    (hcs : -32768 ≤ h.course_size ∧ h.course_size < 32768) :
    ∃ buf, MDBHeader.to_bytearray h = Except.ok buf ∧
      buf.length = 64 ∧
      sint16 (leSlice buf 22 2) = h.course_number ∧
      sint16 (leSlice buf 24 2) = h.course_size ∧
      MDBHeader.from_byte_data (unpackHeader buf) = Except.ok h := by
  obtain ⟨henc, hdec⟩ := header_roundtrip h hlen hascii hf hc hhs hrs hrn hcn hcs
  obtain ⟨u0, u1, u2, u3, u4, u5, u6, u7, hid⟩ := exists_eight h.id hlen
  have hEq : headerBytes h =
      [u0, u1, u2, u3, u4, u5, u6, u7] ++ packI h.format ++ packI h.checksum ++
        packH h.header_size ++ packH h.record_size ++ packH h.record_number ++
        packH h.course_number ++ packH h.course_size ++ List.replicate 38 0 := by
    unfold headerBytes
    rw [hid]
  obtain ⟨hs22, hs24, hlen64⟩ := headerBytes_slices u0 u1 u2 u3 u4 u5 u6 u7
    h.format h.checksum h.header_size h.record_size h.record_number
    h.course_number h.course_size
  refine ⟨headerBytes h, henc, ?_, ?_, ?_, hdec⟩
  · rw [hEq]
    exact hlen64
  · rw [hEq, hs22]
    exact sint16_digits h.course_number hcn.1 hcn.2
  · rw [hEq, hs24]
    exact sint16_digits h.course_size hcs.1 hcs.2

theorem C6_header_layout_corrected_witness :
    ∃ buf, MDBHeader.to_bytearray C6hdr = Except.ok buf ∧
      buf.length = 64 ∧
      sint16 (leSlice buf 22 2) = C6hdr.course_number ∧
      sint16 (leSlice buf 24 2) = C6hdr.course_size ∧
      MDBHeader.from_byte_data (unpackHeader buf) = Except.ok C6hdr :=
  C6_header_layout_corrected C6hdr rfl (by decide) (by decide) (by decide)
    (by decide) (by decide) (by decide) (by decide) (by decide)

/-- C9 (implicit): header codec internal consistency: for every header whose
identifier is an 8-character ASCII string (and whose scalar fields lie in
the signed ranges its struct formats declare), decoding the encoding
reproduces the header exactly — encoder and decoder agree on the positions
of `course_number` and `course_size`, whatever that shared order is. -/
theorem C9_header_codec_consistent (h : MDBHeader)
    (hlen : h.id.length = 8) (hascii : ∀ b ∈ h.id, b ≤ 127)
    (hf : -2147483648 ≤ h.format ∧ h.format < 2147483648)
    (hc : -2147483648 ≤ h.checksum ∧ h.checksum < 2147483648)
    (hhs : -32768 ≤ h.header_size ∧ h.header_size < 32768)
    (hrs : -32768 ≤ h.record_size ∧ h.record_size < 32768)
    (hrn : -32768 ≤ h.record_number ∧ h.record_number < 32768)
    (hcn : -32768 ≤ h.course_number ∧ h.course_number < 32768)
    (hcs : -32768 ≤ h.course_size ∧ h.course_size < 32768) :
    ∃ buf, MDBHeader.to_bytearray h = Except.ok buf ∧
      MDBHeader.from_byte_data (unpackHeader buf) = Except.ok h := by
  obtain ⟨henc, hdec⟩ := header_roundtrip h hlen hascii hf hc hhs hrs hrn hcn hcs
  exact ⟨headerBytes h, henc, hdec⟩

theorem C9_header_codec_consistent_witness :
    ∃ buf,
      MDBHeader.to_bytearray ⟨[71, 70, 47, 68, 77, 109, 100, 98], 102, 0, 64, 188, 2, 36, 1⟩ =
        Except.ok buf ∧
      MDBHeader.from_byte_data (unpackHeader buf) =
        Except.ok ⟨[71, 70, 47, 68, 77, 109, 100, 98], 102, 0, 64, 188, 2, 36, 1⟩ :=
  C9_header_codec_consistent ⟨[71, 70, 47, 68, 77, 109, 100, 98], 102, 0, 64, 188, 2, 36, 1⟩
    rfl (by decide) (by decide) (by decide) (by decide) (by decide) (by decide)
    (by decide) (by decide)

/-! ## MDB song codec (`src/pakdump/mdbe.py`, `MDBSong`)

`MDBSong.STRUCT_FORMAT` is
`<i 16B B B 2B 2B B B H H 16B H H B 2B B B B b b 128B B B B B` — 185 value
slots in total (it contains the `2B first_ver` pair and a 16-byte title).
`struct.pack_into` first checks that exactly as many values are supplied as
the format has slots and raises `struct.error` otherwise. -/

structure MDBDifficulty where
  beginner : ℕ
  basic : ℕ
  advanced : ℕ
  extreme : ℕ

structure MDBDifficultyList where
  guitar : MDBDifficulty
  bass : MDBDifficulty
  open_pick : MDBDifficulty
  drum : MDBDifficulty

/-- The 16 difficulty bytes in the order `to_bytearray` supplies them. -/
def MDBDifficultyList.values (d : MDBDifficultyList) : List ℤ :=
  [(d.guitar.beginner : ℤ), (d.guitar.basic : ℤ), (d.guitar.advanced : ℤ),
   (d.guitar.extreme : ℤ),
   (d.bass.beginner : ℤ), (d.bass.basic : ℤ), (d.bass.advanced : ℤ), (d.bass.extreme : ℤ),
   (d.open_pick.beginner : ℤ), (d.open_pick.basic : ℤ), (d.open_pick.advanced : ℤ),
   (d.open_pick.extreme : ℤ),
   (d.drum.beginner : ℤ), (d.drum.basic : ℤ), (d.drum.advanced : ℤ), (d.drum.extreme : ℤ)]

structure MDBSong where
  music_id : ℤ
  difficulty : MDBDifficultyList
  pad_diff : ℕ
  seq_flag : ℕ
  contain_stat : ℕ × ℕ
  first_ver : ℕ × ℕ
  b_long : Bool
  b_eemall : Bool
  bpm : ℕ
  bpm2 : ℕ
  title_ascii : List ℕ
  order_ascii : ℕ
  order_kana : ℕ
  category_kana : ℕ
  secret : ℕ × ℕ
  b_session : ℕ
  speed : ℕ
  life : ℕ
  gf_offset : ℤ
  dm_offset : ℤ
  chart_list : List ℕ
  origin : ℕ
  music_type : ℕ
  genre : ℕ
  is_remaster : ℕ

/-- The value slots of `MDBSong.STRUCT_FORMAT`. -/
inductive FmtSlot
  | i
  | B
  | b
  | H

/-- `MDBSong.STRUCT_FORMAT` as its list of value slots (185 of them). -/
def songFormatSlots : List FmtSlot :=
  [.i] ++ List.replicate 16 .B ++ [.B, .B] ++ List.replicate 2 .B ++
    List.replicate 2 .B ++ [.B, .B, .H, .H] ++ List.replicate 16 .B ++
    [.H, .H, .B] ++ List.replicate 2 .B ++ [.B, .B, .B, .b, .b] ++
    List.replicate 128 .B ++ [.B, .B, .B, .B]

/-- Pack one value into one slot, with `struct`'s range checking. -/
def packSlot : FmtSlot → ℤ → Except String (List ℕ)
  | .i, v =>
      if -2147483648 ≤ v ∧ v < 2147483648 then Except.ok (packI v)
      else Except.error "i out of range"
  | .B, v => if 0 ≤ v ∧ v < 256 then Except.ok [v.toNat] else Except.error "B out of range"
  | .b, v =>
      if -128 ≤ v ∧ v < 128 then Except.ok [(v % 256).toNat]
      else Except.error "b out of range"
  | .H, v =>
      if 0 ≤ v ∧ v < 65536 then Except.ok [v.toNat % 256, v.toNat / 256]
      else Except.error "H out of range"

def packValues : List FmtSlot → List ℤ → Except String (List ℕ)
  | [], [] => Except.ok []
  | s :: ss, v :: vs => do
      let b ← packSlot s v
      let rest ← packValues ss vs
      pure (b ++ rest)
  | _, _ => Except.error "pack arity"

/-- The padded title `to_bytearray` builds: the title bytes extended with
`15 - len(title)` zero bytes (`range(0, title_diff)` is empty when the title
already has 15 or more characters). -/
def MDBSong.newTitle (s : MDBSong) : List ℕ :=
  s.title_ascii ++ List.replicate (15 - s.title_ascii.length) 0

/-- The values `MDBSong.to_bytearray` supplies to `struct.pack_into`, in
source order: note `pad_diff` before `seq_flag`, no `first_ver` pair, and the
15-byte padded title. -/
def MDBSong.packArgs (s : MDBSong) : List ℤ :=
  [s.music_id] ++ s.difficulty.values ++
    [(s.pad_diff : ℤ), (s.seq_flag : ℤ)] ++
    [(s.contain_stat.1 : ℤ), (s.contain_stat.2 : ℤ)] ++
    [if s.b_long then 1 else 0, if s.b_eemall then 1 else 0] ++
    [(s.bpm : ℤ), (s.bpm2 : ℤ)] ++
    s.newTitle.map Int.ofNat ++
    [(s.order_ascii : ℤ), (s.order_kana : ℤ), (s.category_kana : ℤ)] ++
    [(s.secret.1 : ℤ), (s.secret.2 : ℤ)] ++
    [(s.b_session : ℤ), (s.speed : ℤ), (s.life : ℤ), s.gf_offset, s.dm_offset] ++
    s.chart_list.map Int.ofNat ++
    [(s.origin : ℤ), (s.music_type : ℤ), (s.genre : ℤ), (s.is_remaster : ℤ)]

/-- `MDBSong.to_bytearray`: `struct.pack_into(STRUCT_FORMAT, buffer, 0, *args)`
into the zero-filled 0xC0-byte buffer.  `struct` raises when the number of
supplied values differs from the format's 185 slots. -/
def MDBSong.to_bytearray (s : MDBSong) : Except String (List ℕ) :=
  if s.packArgs.length ≠ songFormatSlots.length then
    Except.error "pack expected 185 items"
  else
    (packValues songFormatSlots s.packArgs).map
      (fun bs => bs ++ List.replicate (192 - bs.length) 0)

/-- C3 (code bug): for every song whose title has at most 16 characters and
whose chart list has the 128 slots of the format, `MDBSong.to_bytearray`
supplies only 182 or 183 values to the 185-slot `STRUCT_FORMAT` (the
`first_ver` pair is never packed and the padded title is 15 bytes, not 16),
so `struct.pack_into` always raises and the claimed round trip
`from_byte_data(unpack(to_bytearray(s))) = s` is impossible for the encoder
in the source. -/
theorem C3_song_encode_raises (s : MDBSong)
    (htitle : s.title_ascii.length ≤ 16) (hchart : s.chart_list.length = 128) :
    MDBSong.to_bytearray s = Except.error "pack expected 185 items" := by
  unfold MDBSong.to_bytearray
  rw [if_pos ?hcond]
  case hcond =>
    have hargs : s.packArgs.length = 167 + s.newTitle.length := by
      simp only [MDBSong.packArgs, MDBDifficultyList.values, List.length_append,
        List.length_map, List.length_cons, List.length_nil, hchart]
      omega
    have hnt : s.newTitle.length = s.title_ascii.length + (15 - s.title_ascii.length) := by
      simp only [MDBSong.newTitle, List.length_append, List.length_replicate]
    have hfmt : songFormatSlots.length = 185 := by
      simp only [songFormatSlots, List.length_append, List.length_replicate,
        List.length_cons, List.length_nil]
    omega

theorem C3_song_encode_raises_witness :
    MDBSong.to_bytearray
        ⟨1, ⟨⟨0, 0, 0, 0⟩, ⟨0, 0, 0, 0⟩, ⟨0, 0, 0, 0⟩, ⟨0, 0, 0, 0⟩⟩, 0, 0, (0, 0), (0, 0),
          false, false, 120, 140, [65], 0, 0, 0, (0, 0), 0, 0, 0, 0, 0,
          List.replicate 128 0, 0, 0, 0, 0⟩ =
      Except.error "pack expected 185 items" :=
  C3_song_encode_raises _ (by simp) (by simp)

end Pakdump
